import Mathlib

/-!
Verification of the telemetry decode-and-reconcile pipeline of the
disaster-recovery backend.  The Lean definitions below are shallow
embeddings of the Python sources `generate_messages.py`,
`backend/api_routes.py` and `backend/database_manager.py`.

Modelling conventions:
* Python byte strings are `List ℕ` whose entries are below 256.
* Python floats are modelled as exact rationals (`ℚ`).
* `datetime` values are modelled as natural numbers (Unix seconds); the
  ISO-format rendering used by the code is an injective presentation of
  such a number and none of the verified properties depend on it.
* Python dicts keyed by strings are association lists updated in place
  by `dictInsert`, which preserves insertion order exactly as Python
  dicts do.
* Calls into the Python standard library that the code uses as black
  boxes and whose internals are irrelevant to every verified property
  (base64 decoding, lenient UTF-8 text decoding) are passed in as
  function parameters, so every theorem quantifies over their behaviour.
-/

namespace DisasterRecovery

set_option maxRecDepth 8000

/-! ### Location codec

`encode_location` comes from `generate_messages.py` (lines 6-19) and
`parse_type1_location` from `backend/api_routes.py` (lines 188-209).
-/

/-- Python `int(q)` applied to a float operand truncates toward zero. -/
def pyTrunc (q : ℚ) : ℤ := if 0 ≤ q then ⌊q⌋ else -⌊-q⌋

/-- The constant `(1 << 28) - 1` that both codec directions use as the
full-scale divisor. -/
def u28max : ℕ := (1 <<< 28) - 1

/-- Encode `lat`/`lon` to the 7-byte type-1 payload: quantise each to a
28-bit field, pack the two fields into a 56-bit value (latitude in the
upper 28 bits) and emit its 7 bytes most-significant first.  Python
`int` values are unbounded and signed, so the computation lives in `ℤ`;
the final Python `bytes(result)` call requires every emitted entry to
lie in `[0, 255]`, which the round-trip theorem establishes for
in-range inputs. -/
def encode_location (lat lon : ℚ) : List ℤ :=
  let lat_u : ℤ := pyTrunc ((lat + 90) / 180 * (u28max : ℚ))
  let lon_u : ℤ := pyTrunc ((lon + 180) / 360 * (u28max : ℚ))
  let value : ℤ := Int.lor (lat_u <<< (28 : ℤ)) lon_u
  (List.range 7).reverse.map (fun i => Int.land (value >>> ((8 * i : ℕ) : ℤ)) 0xFF)

/-- Decode the 7-byte type-1 payload: rebuild the 56-bit big-endian
value, split it into the two 28-bit fields and rescale each with the
max-scale divisor `(1 << 28) - 1`.  Returns `(lat, lon)`. -/
def parse_type1_location (payload_data : List ℕ) : ℚ × ℚ :=
  let value : ℕ := payload_data.foldl (fun v b => (v <<< 8) ||| b) 0
  let lat_u : ℕ := (value >>> 28) &&& ((1 <<< 28) - 1)
  let lon_u : ℕ := value &&& ((1 <<< 28) - 1)
  ((lat_u : ℚ) / (u28max : ℚ) * 180 - 90,
   (lon_u : ℚ) / (u28max : ℚ) * 360 - 180)

/-! ### Device-identifier resolution

Embeds the sender-id handling block of `receive_byte_string`
(`backend/api_routes.py` lines 319-335).
-/

/-- Python `n.to_bytes(4, byteorder='big')`: the four big-endian bytes
of a 32-bit value. -/
def toBytesBE4 (n : ℕ) : List ℕ :=
  [n / 2 ^ 24 % 256, n / 2 ^ 16 % 256, n / 2 ^ 8 % 256, n % 256]

/-- Python `str.rstrip` with the NUL character: drop trailing zero
bytes. -/
def rstripNull (l : List ℕ) : List ℕ :=
  (l.reverse.dropWhile (fun b => b == 0)).reverse

/-- Python `str.isprintable` on characters decoded from ASCII bytes:
true exactly for code points 0x20 - 0x7E. -/
def pyIsPrintable (b : ℕ) : Bool :=
  decide (32 ≤ b) && decide (b ≤ 126)

/-- Python `f"{n:04d}"`: the decimal digits of `n`, left-padded with
zeros to at least four characters. -/
def zeroPad4 (n : ℕ) : String :=
  let s := toString n
  if s.length < 4 then String.mk (List.replicate (4 - s.length) '0') ++ s else s

/-- DeviceIdResolver: reinterpret the 32-bit sender id as four
big-endian bytes; if they decode as ASCII (every byte below 0x80) and,
after stripping trailing NULs, form a nonempty printable string of at
most four characters, use that string as the device id; otherwise fall
back to the zero-padded decimal rendering of the integer.  Total by
construction; the Python code could only raise for sender ids outside
u32, which the 4-byte envelope field never produces. -/
def resolveSenderUuid (sender_id : ℕ) : String :=
  let bs := toBytesBE4 sender_id
  if bs.all (fun b => decide (b < 128)) then
    let stripped := rstripNull bs
    if !stripped.isEmpty && stripped.all pyIsPrintable && decide (stripped.length ≤ 4) then
      String.mk (stripped.map (fun b => Char.ofNat b))
    else
      zeroPad4 sender_id
  else
    zeroPad4 sender_id

/-! ### Battery codec

Embeds `parse_type3_battery` (`backend/api_routes.py` lines 230-252),
including the semantics of the Python `int()` string conversion it
relies on.
-/

/-- ASCII decimal digit test. -/
def isAsciiDigit (b : ℕ) : Bool :=
  decide (48 ≤ b) && decide (b ≤ 57)

/-- ASCII whitespace accepted and stripped by Python `int()` on the
pure-ASCII strings this codec produces: tab through carriage return
and space (CPython raises ValueError on every other ASCII control
character, including the 0x1C-0x1F separators). -/
def isPySpace (b : ℕ) : Bool :=
  (decide (9 ≤ b) && decide (b ≤ 13)) || decide (b = 32)

/-- Strip leading and trailing Python whitespace. -/
def stripPySpaces (l : List ℕ) : List ℕ :=
  ((l.dropWhile isPySpace).reverse.dropWhile isPySpace).reverse

/-- Tail of a Python integer literal after its leading digit: digits,
with single underscores allowed only between digits. -/
def digitsTail : List ℕ → Bool
  | [] => true
  | c :: rest =>
    if isAsciiDigit c then digitsTail rest
    else if c == 95 then
      match rest with
      | [] => false
      | d :: rest2 => isAsciiDigit d && digitsTail rest2
    else false

/-- Digit sequence of a Python integer literal: nonempty, starting with
a digit, underscores only between digits. -/
def okDigits : List ℕ → Bool
  | [] => false
  | c :: rest => isAsciiDigit c && digitsTail rest

/-- Decimal value of an ASCII digit sequence. -/
def digitsVal (l : List ℕ) : ℕ :=
  l.foldl (fun acc c => acc * 10 + (c - 48)) 0

/-- Signed digit-sequence conversion used by `pyIntParse`. -/
def pyIntCore (ds : List ℕ) (sign : ℤ) : Option ℤ :=
  if okDigits ds then
    some (sign * (digitsVal (ds.filter (fun c => c != 95)) : ℤ))
  else
    none

/-- Python `int(s)` on a string of ASCII code points: strip whitespace,
allow a single optional sign, then require a digit sequence with
underscores only between digits; any other shape raises ValueError,
modelled as `none`. -/
def pyIntParse (l : List ℕ) : Option ℤ :=
  match stripPySpaces l with
  | [] => none
  | c :: rest =>
    if c == 43 then pyIntCore rest 1
    else if c == 45 then pyIntCore rest (-1)
    else pyIntCore (c :: rest) 1

/-- Decode the 7-byte type-3 battery payload.  Bytes 0-1 are decoded as
ASCII with undecodable bytes dropped (Python `errors='ignore'` removes
bytes at 0x80 and above) and passed to `int()`; on ValueError the
percentage defaults to 0.  Bytes 2-6 are handled the same way for the
seconds-remaining field.  Python ints are signed, hence values in `ℤ`. -/
def parse_type3_battery (payload_data : List ℕ) : ℤ × ℤ :=
  let percentage :=
    (pyIntParse ((payload_data.take 2).filter (fun b => decide (b < 128)))).getD 0
  let time_left_till_off :=
    (pyIntParse (((payload_data.drop 2).take 5).filter (fun b => decide (b < 128)))).getD 0
  (percentage, time_left_till_off)

/-! ### Envelope codec

Embeds `parse_message_bytes` (`backend/api_routes.py` lines 154-185).
-/

/-- Decoded 20-byte wire message. -/
structure ParsedMessage where
  message_id : ℕ
  sender_id : ℕ
  timestamp : ℕ
  payload_type : ℕ
  payload_data : List ℕ
deriving DecidableEq

/-- Semantics of Python `struct.unpack('>I', ...)` on a 4-byte slice:
big-endian base-256 accumulation. -/
def be32 (bs : List ℕ) : ℕ := bs.foldl (fun acc b => acc * 256 + b) 0

/-- Parse a 20-byte message into its components: bytes 0-3 message_id,
bytes 4-7 sender_id, bytes 8-11 timestamp (all big-endian uint32),
byte 12 payload_type, bytes 13-19 payload_data.  Any other length
raises ValueError, modelled as `Except.error`. -/
def parse_message_bytes (message_bytes : List ℕ) : Except String ParsedMessage :=
  if message_bytes.length ≠ 20 then
    Except.error ("Message must be exactly 20 bytes, got " ++ toString message_bytes.length)
  else
    Except.ok
      { message_id := be32 (message_bytes.take 4)
        sender_id := be32 ((message_bytes.drop 4).take 4)
        timestamp := be32 ((message_bytes.drop 8).take 4)
        payload_type := message_bytes.getD 12 0
        payload_data := (message_bytes.drop 13).take 7 }

/-! ### Remaining payload codecs used by the ingestion pipeline -/

/-- Decode the 7-byte type-2 questionnaire payload: a byte maps to '1'
exactly when it is 0x01; every other value (0x00 and the lenient
treatment of unknown bytes such as 0xFF) maps to '0'. -/
def parse_type2_questionnaire (payload_data : List ℕ) : String :=
  String.mk (payload_data.map (fun b => if b = 1 then '1' else '0'))

/-- Decode the 7-byte type-4 free-text payload: decode the raw bytes as
UTF-8 with invalid sequences dropped - the decoder itself is the Python
standard library, taken here as a parameter - then right-strip NUL
padding. -/
def parse_type4_message (utf8ignore : List ℕ → List Char)
    (payload_data : List ℕ) : String :=
  String.mk (((utf8ignore payload_data).reverse.dropWhile
    (fun c => c == Char.ofNat 0)).reverse)

/-! ### Ingestion pipeline

Embeds `receive_byte_string` (`backend/api_routes.py` lines 269-444):
the per-message transport decode, envelope parse, device-id resolution,
record lookup and payload-type dispatch, with per-message error
collection.
-/

/-- ASCII whitespace ignored by Python `bytes.fromhex`. -/
def isAsciiWhitespace (b : ℕ) : Bool :=
  (decide (9 ≤ b) && decide (b ≤ 13)) || decide (b = 32)

/-- Value of one hexadecimal digit character. -/
def hexDigitVal (c : Char) : Option ℕ :=
  if decide (48 ≤ c.toNat) && decide (c.toNat ≤ 57) then some (c.toNat - 48)
  else if decide (97 ≤ c.toNat) && decide (c.toNat ≤ 102) then some (c.toNat - 87)
  else if decide (65 ≤ c.toNat) && decide (c.toNat ≤ 70) then some (c.toNat - 55)
  else none

/-- Pair hex digits into byte values, skipping ASCII whitespace before
each pair (never inside one, exactly like `bytes.fromhex`); a lone
trailing digit, a split pair or a non-hex character fails. -/
def hexPairs : List Char → Option (List ℕ)
  | [] => some []
  | a :: rest =>
    if isAsciiWhitespace a.toNat then hexPairs rest
    else
      match rest with
      | [] => none
      | b :: rest2 =>
        match hexDigitVal a, hexDigitVal b, hexPairs rest2 with
        | some hi, some lo, some bs => some ((16 * hi + lo) :: bs)
        | _, _, _ => none

/-- Python `bytes.fromhex`: two hex digits per byte, with ASCII
whitespace allowed only around byte pairs, not between the two digits
of one pair. -/
def hexDecode (s : String) : Option (List ℕ) :=
  hexPairs s.data

/-- Transport decoding of one batch element: try hex first, then the
base64 fallback (the base64 decoder is the Python standard library,
taken as a parameter; `none` models its exceptions).  `none` overall
means the invalid-encoding error. -/
def transportDecode (b64decode : String → Option (List ℕ)) (s : String) :
    Option (List ℕ) :=
  match hexDecode s with
  | some bs => some bs
  | none => b64decode s

/-- Entry of a device record's messages array. -/
structure MessageObj where
  message_id : ℕ
  time : ℕ
  message : String
deriving DecidableEq

/-- Persistent per-device user record: the document shape created by
signup, with the fields the ingestion pipeline reads and mutates.
`location` is (lat, long, last_updated), `battery` is
(percentage, time_left_till_off, last_updated). -/
structure UserRecord where
  uuid : String
  utype : String
  name : String
  location : Option (ℚ × ℚ × ℕ)
  battery : Option (ℤ × ℤ × ℕ)
  messages : List MessageObj
  emergency_questionaire : Option String
  created_at : ℕ
  updated_at : ℕ
deriving DecidableEq

/-- Mongo `find_one({"uuid": uuid})` on the users collection: the first
record with the given uuid. -/
def findUser (users : List UserRecord) (uuid : String) : Option UserRecord :=
  users.find? (fun u => u.uuid == uuid)

/-- Mongo `update_one({"uuid": uuid}, ...)`: rewrite the first matching
record, leave the rest untouched. -/
def updateFirst : List UserRecord → String → (UserRecord → UserRecord) → List UserRecord
  | [], _, _ => []
  | u :: rest, uuid, f =>
    if u.uuid == uuid then f u :: rest else u :: updateFirst rest uuid f

/-- Mongo `find_one({"uuid": uuid, "messages.message_id": mid})`: some
record carries the uuid and already contains the message id. -/
def dupCheck (users : List UserRecord) (uuid : String) (mid : ℕ) : Bool :=
  users.any (fun u => u.uuid == uuid && u.messages.any (fun mo => mo.message_id == mid))

/-- Mutable state threaded through the batch loop: the users collection
plus the processed counter and error list. -/
structure IngestState where
  users : List UserRecord
  processed : ℕ
  errors : List String
deriving DecidableEq

/-- Result of one batch call: final store contents plus the response
fields `processed`, `total` and `errors`. -/
structure IngestResponse where
  users : List UserRecord
  processed : ℕ
  total : ℕ
  errors : List String
deriving DecidableEq

/-- Process one element of a batch (the body of the per-message loop of
`receive_byte_string`): transport-decode, parse the 20-byte envelope,
resolve the device id, look up the device record, then dispatch on the
payload type.  Every failure appends exactly one entry to the error
list and leaves the store untouched; every success bumps the processed
counter.  `now` is the processing wall-clock time written to
`updated_at` (the message timestamp goes to the per-field
`last_updated`/`time` values), `idx` the batch index used in error
texts. -/
def processMessage (b64decode : String → Option (List ℕ))
    (utf8ignore : List ℕ → List Char) (now : ℕ) (st : IngestState) (idx : ℕ)
    (message_str : String) : IngestState :=
  match transportDecode b64decode message_str with
  | none =>
    { st with errors := st.errors ++ ["Message " ++ toString idx ++ ": Invalid encoding"] }
  | some message_bytes =>
    match parse_message_bytes message_bytes with
    | Except.error e =>
      { st with errors := st.errors ++ ["Message " ++ toString idx ++ ": " ++ e] }
    | Except.ok parsed =>
      let sender_uuid := resolveSenderUuid parsed.sender_id
      match findUser st.users sender_uuid with
      | none =>
        { st with errors := st.errors ++
            ["Message " ++ toString idx ++ ": User with uuid " ++ sender_uuid ++
              " not found"] }
      | some _user =>
        if parsed.payload_type = 1 then
          let location := parse_type1_location parsed.payload_data
          { st with
            users := updateFirst st.users sender_uuid (fun u =>
              { u with
                location := some (location.1, location.2, parsed.timestamp)
                updated_at := now })
            processed := st.processed + 1 }
        else if parsed.payload_type = 2 then
          { st with
            users := updateFirst st.users sender_uuid (fun u =>
              { u with
                emergency_questionaire :=
                  some (parse_type2_questionnaire parsed.payload_data)
                updated_at := now })
            processed := st.processed + 1 }
        else if parsed.payload_type = 3 then
          let battery := parse_type3_battery parsed.payload_data
          { st with
            users := updateFirst st.users sender_uuid (fun u =>
              { u with
                battery := some (battery.1, battery.2, parsed.timestamp)
                updated_at := now })
            processed := st.processed + 1 }
        else if parsed.payload_type = 4 then
          let message_text := parse_type4_message utf8ignore parsed.payload_data
          if dupCheck st.users sender_uuid parsed.message_id then
            { st with processed := st.processed + 1 }
          else
            { st with
              users := updateFirst st.users sender_uuid (fun u =>
                { u with
                  messages := u.messages ++
                    [{ message_id := parsed.message_id
                       time := parsed.timestamp
                       message := message_text }]
                  updated_at := now })
              processed := st.processed + 1 }
        else if parsed.payload_type = 5 then
          { st with
            users := updateFirst st.users sender_uuid (fun u =>
              { u with updated_at := now })
            processed := st.processed + 1 }
        else
          { st with errors := st.errors ++
              ["Message " ++ toString idx ++ ": Unknown payload type " ++
                toString parsed.payload_type] }

/-- Batch ingestion `receive_byte_string`: fold the per-message
processor over the batch from the given store with zero processed and
no errors; the response reports the final store, the processed count,
the batch size and the collected errors. -/
def receive_byte_string (b64decode : String → Option (List ℕ))
    (utf8ignore : List ℕ → List Char) (now : ℕ) (users : List UserRecord)
    (messages : List String) : IngestResponse :=
  let final := (messages.foldl
    (fun acc m => (processMessage b64decode utf8ignore now acc.1 acc.2 m, acc.2 + 1))
    (({ users := users, processed := 0, errors := [] } : IngestState), 0)).1
  { users := final.users, processed := final.processed, total := messages.length
    errors := final.errors }

/-- Record rewrite performed by a first-time type-4 apply: append the
message object and refresh updated_at. -/
def appendMessage (parsed : ParsedMessage) (text : String) (now : ℕ)
    (v : UserRecord) : UserRecord :=
  { v with
    messages := v.messages ++
      [{ message_id := parsed.message_id, time := parsed.timestamp, message := text }]
    updated_at := now }

/-- Concrete device record for the duplicate-delivery witness: device
"0001" already holding message id 8. -/
def witnessUserDup : UserRecord :=
  { uuid := "0001", utype := "victim", name := "Alice", location := none
    battery := none
    messages := [{ message_id := 8, time := 5, message := "HELP!!" }]
    emergency_questionaire := none, created_at := 0, updated_at := 0 }

/-- Hex encoding of a concrete 20-byte type-4 message: message id 8,
sender id 1, timestamp 0x6747a00e, text bytes "HELP!!\x00". -/
def witnessHexType4 : String := "00000008000000016747a00e0448454c50212100"

/-- Byte string encoded by `witnessHexType4`. -/
def witnessBytesType4 : List ℕ :=
  [0, 0, 0, 8, 0, 0, 0, 1, 0x67, 0x47, 0xa0, 0x0e, 4,
    0x48, 0x45, 0x4c, 0x50, 0x21, 0x21, 0x00]

/-- Envelope decoded from `witnessBytesType4`. -/
def witnessParsedType4 : ParsedMessage :=
  { message_id := 8, sender_id := 1, timestamp := 0x6747a00e, payload_type := 4
    payload_data := [0x48, 0x45, 0x4c, 0x50, 0x21, 0x21, 0x00] }

/-- Concrete device record for the dedup witness: device "0001" with no
messages yet. -/
def witnessUserFresh : UserRecord :=
  { uuid := "0001", utype := "victim", name := "Alice", location := none
    battery := none, messages := []
    emergency_questionaire := none, created_at := 0, updated_at := 0 }

/-! ### Location buffer and flush scheduler

Embeds the buffer writes of `receive_phone_data`
(`backend/api_routes.py` lines 447-490) and the periodic flush
`store_locations_to_db` (`backend/database_manager.py` lines 50-104).
-/

/-- Buffered phone sample / persisted location document.  The Python
code uses one dict shape for both; the two keys that only the flush
transformation adds - the GeoJSON coordinate pair and `last_seen` - are
`Option`s that a fresh buffer write leaves empty. -/
structure PhoneData where
  phone_id : String
  latitude : ℚ
  longitude : ℚ
  accuracy : ℚ
  battery_percentage : ℚ
  ptype : String
  questionnaire_data : String
  timestamp : ℕ
  geo : Option (ℚ × ℚ) := none
  last_seen : Option ℕ := none
deriving DecidableEq

/-- Python dict assignment `d[k] = v` on a string-keyed dict modelled
as an association list: overwrite an existing entry in place, otherwise
append (preserving Python dict insertion order). -/
def dictInsert {α : Type} (m : List (String × α)) (k : String) (v : α) :
    List (String × α) :=
  if (m.lookup k).isSome then
    m.map (fun p => if p.1 = k then (k, v) else p)
  else
    m ++ [(k, v)]

/-- Buffer write of the phone-data endpoint: store the sample under its
phone id, last write wins. -/
def bufferPut (buf : List (String × PhoneData)) (phone_id : String)
    (sample : PhoneData) : List (String × PhoneData) :=
  dictInsert buf phone_id sample

/-- Flush-time transformation of one popped buffer entry into the
persisted document shape: add the GeoJSON coordinate pair, stamp the
document with the flush wall-clock time, and keep the original sample
time only in `last_seen`. -/
def flushDoc (current_time : ℕ) (phone_id : String) (data : PhoneData) : PhoneData :=
  { phone_id := phone_id
    geo := some (data.longitude, data.latitude)
    latitude := data.latitude
    longitude := data.longitude
    accuracy := data.accuracy
    battery_percentage := data.battery_percentage
    ptype := data.ptype
    questionnaire_data := data.questionnaire_data
    timestamp := current_time
    last_seen := some data.timestamp }

/-- One tick of the flush scheduler: an empty buffer is a no-op;
otherwise every entry is popped, transformed with `flushDoc`, and the
batch is bulk-inserted.  `insertOk` abstracts whether the external
insert_many call succeeds; on failure every transformed document is
re-added to the (emptied) buffer keyed by its phone_id.  Returns the
resulting buffer and the documents handed to the store. -/
def flushTick (current_time : ℕ) (insertOk : Bool)
    (buf : List (String × PhoneData)) :
    List (String × PhoneData) × List PhoneData :=
  if buf = [] then (buf, [])
  else
    let documents := buf.map (fun p => flushDoc current_time p.1 p.2)
    if insertOk then ([], documents)
    else (documents.foldl (fun b doc => dictInsert b doc.phone_id doc) [], documents)

/-- Concrete sample for the flush-rollback counterexample and witness:
a plain buffered sample observed at time 10. -/
def witnessSample : PhoneData :=
  { phone_id := "d1", latitude := 42, longitude := -78, accuracy := 5
    battery_percentage := 50, ptype := "victim", questionnaire_data := ""
    timestamp := 10 }

/-! ### Latest-location merger

Embeds the reconciliation part of `get_latest_locations`
(`backend/database_manager.py` lines 178-258).  The Mongo aggregation
pipeline of step 1 runs in the external store; `loadDbLatest` takes its
output rows (one latest row per phone_id) and builds the per-device
candidate dict, and `mergeBuffer` walks the buffer letting a buffered
sample win exactly when the kept candidate is strictly older or absent
(the Python isinstance check on the stored timestamp always holds here,
timestamps being datetimes modelled as ℕ).  Step 3 - timestamp
formatting, sorting, truncation - does not change the per-device choice
and is outside the claims. -/

/-- Response entry kept per device by `get_latest_locations`. -/
structure LocRecord where
  phone_id : String
  latitude : ℚ
  longitude : ℚ
  accuracy : ℚ
  battery_percentage : ℚ
  ptype : String
  questionnaire_data : String
  timestamp : ℕ
  last_seen : ℕ
deriving DecidableEq

/-- Projection of a persisted row into the candidate map: copy the
fields, defaulting `last_seen` to the row timestamp. -/
def dbProject (loc : PhoneData) : LocRecord :=
  { phone_id := loc.phone_id, latitude := loc.latitude, longitude := loc.longitude
    accuracy := loc.accuracy, battery_percentage := loc.battery_percentage
    ptype := loc.ptype, questionnaire_data := loc.questionnaire_data
    timestamp := loc.timestamp, last_seen := loc.last_seen.getD loc.timestamp }

/-- Projection of a buffered sample: both timestamp and last_seen are
the buffered sample time. -/
def bufProject (phone_id : String) (data : PhoneData) : LocRecord :=
  { phone_id := phone_id, latitude := data.latitude, longitude := data.longitude
    accuracy := data.accuracy, battery_percentage := data.battery_percentage
    ptype := data.ptype, questionnaire_data := data.questionnaire_data
    timestamp := data.timestamp, last_seen := data.timestamp }

/-- Insert each aggregated database row into the per-device candidate
dict, keyed by phone_id. -/
def loadDbLatest (db_locations : List PhoneData) : List (String × LocRecord) :=
  db_locations.foldl (fun acc loc => dictInsert acc loc.phone_id (dbProject loc)) []

/-- Body of the buffer-reconciliation loop: a buffered sample replaces
the kept candidate exactly when there is no candidate for its device or
the candidate is strictly older. -/
def mergeStep (acc : List (String × LocRecord)) (p : String × PhoneData) :
    List (String × LocRecord) :=
  let is_newer := match acc.lookup p.1 with
    | some cur => decide (cur.timestamp < p.2.timestamp)
    | none => true
  if is_newer then dictInsert acc p.1 (bufProject p.1 p.2) else acc

/-- Buffer-reconciliation loop over all buffered samples. -/
def mergeBuffer (latest_locations : List (String × LocRecord))
    (phone_data_buffer : List (String × PhoneData)) : List (String × LocRecord) :=
  phone_data_buffer.foldl mergeStep latest_locations

/-- Latest-per-device view computed by `get_latest_locations` before
the final sort and limit. -/
def latestPerDevice (db_locations : List PhoneData)
    (phone_data_buffer : List (String × PhoneData)) : List (String × LocRecord) :=
  mergeBuffer (loadDbLatest db_locations) phone_data_buffer

/-- Concrete persisted row for the merger witness: device "d1" last
persisted at time 10. -/
def witnessDbRow : PhoneData :=
  { phone_id := "d1", latitude := 41, longitude := -77, accuracy := 7
    battery_percentage := 80, ptype := "victim", questionnaire_data := ""
    timestamp := 10, geo := some (-77, 41), last_seen := some 9 }

/-! ### Lemmas and claim theorems -/

/-! ### Bit-manipulation helper lemmas -/

/-- Masking with `2 ^ k - 1` is reduction modulo `2 ^ k`. -/
lemma and_two_pow_sub_one_eq_mod (x k : ℕ) : x &&& (2 ^ k - 1) = x % 2 ^ k := by
  apply Nat.eq_of_testBit_eq
  intro i
  rw [Nat.testBit_land, Nat.testBit_mod_two_pow, Nat.testBit_two_pow_sub_one, Bool.and_comm]

/-- Shifting the packed value `(a <<< k) ||| b` back down recovers `a`
when `b` fits in `k` bits. -/
lemma lor_shiftLeft_shiftRight (a b k : ℕ) (hb : b < 2 ^ k) :
    ((a <<< k) ||| b) >>> k = a := by
  apply Nat.eq_of_testBit_eq
  intro i
  have hb2 : b < 2 ^ (k + i) :=
    lt_of_lt_of_le hb (Nat.pow_le_pow_right (by norm_num) (Nat.le_add_right k i))
  simp [Nat.testBit_shiftRight, Nat.testBit_lor, Nat.testBit_shiftLeft,
    Nat.testBit_lt_two_pow hb2, Nat.le_add_right]

/-- Masking the packed value `(a <<< k) ||| b` recovers `b` when `b`
fits in `k` bits. -/
lemma lor_shiftLeft_land (a b k : ℕ) (hb : b < 2 ^ k) :
    ((a <<< k) ||| b) &&& (2 ^ k - 1) = b := by
  apply Nat.eq_of_testBit_eq
  intro i
  simp only [Nat.testBit_land, Nat.testBit_lor, Nat.testBit_shiftLeft,
    Nat.testBit_two_pow_sub_one]
  by_cases h : i < k
  · simp [h, Nat.not_le.mpr h]
  · have hb2 : b.testBit i = false :=
      Nat.testBit_lt_two_pow
        (lt_of_lt_of_le hb (Nat.pow_le_pow_right (by norm_num) (Nat.le_of_not_lt h)))
    simp [h, hb2, Nat.le_of_not_lt h]

/-- Packing two fields with shift-and-or is plain positional arithmetic
when the low field fits in `k` bits. -/
lemma lor_shiftLeft_eq_add (a b k : ℕ) (hb : b < 2 ^ k) :
    (a <<< k) ||| b = a * 2 ^ k + b := by
  have h1 := lor_shiftLeft_shiftRight a b k hb
  have h2 := lor_shiftLeft_land a b k hb
  rw [Nat.shiftRight_eq_div_pow] at h1
  rw [and_two_pow_sub_one_eq_mod] at h2
  have h3 := Nat.div_add_mod ((a <<< k) ||| b) (2 ^ k)
  rw [h1, h2] at h3
  rw [← h3, Nat.mul_comm (2 ^ k) a]

/-- Folding bytes below 256 with shift-and-or is base-256 accumulation. -/
lemma foldl_shift_lor_eq_foldl_mul (l : List ℕ) (hl : ∀ d ∈ l, d < 256) :
    ∀ v : ℕ, l.foldl (fun v b => (v <<< 8) ||| b) v =
      l.foldl (fun v b => v * 256 + b) v := by
  induction l with
  | nil => intro v; rfl
  | cons d t ih =>
    intro v
    have hd : d < 256 := hl d (List.mem_cons_self d t)
    have ht : ∀ x ∈ t, x < 256 := fun x hx => hl x (List.mem_cons_of_mem d hx)
    have hstep : (v <<< 8) ||| d = v * 256 + d := by
      have := lor_shiftLeft_eq_add v d 8 (by omega)
      simpa [Nat.shiftLeft_eq] using this
    simp only [List.foldl_cons, hstep, ih ht]

/-- Reconstructing a 56-bit value from its 7 big-endian bytes is the
identity. -/
lemma unpack_bytes (N : ℕ) (hN : N < 2 ^ 56) :
    ((List.range 7).reverse.map (fun i => (N >>> (8 * i)) &&& 255)).foldl
      (fun v b => (v <<< 8) ||| b) 0 = N := by
  have hrange : (List.range 7).reverse = [6, 5, 4, 3, 2, 1, 0] := rfl
  have hmask : ∀ i : ℕ, (N >>> (8 * i)) &&& 255 = N / 2 ^ (8 * i) % 256 := by
    intro i
    have h255 : (255 : ℕ) = 2 ^ 8 - 1 := by norm_num
    rw [h255, and_two_pow_sub_one_eq_mod, Nat.shiftRight_eq_div_pow]
    norm_num
  have hlt : ∀ d ∈ (List.range 7).reverse.map (fun i => (N >>> (8 * i)) &&& 255),
      d < 256 := by
    intro d hd
    simp only [List.mem_map] at hd
    obtain ⟨i, _, rfl⟩ := hd
    have : (N >>> (8 * i)) &&& 255 ≤ 255 := Nat.and_le_right
    omega
  rw [foldl_shift_lor_eq_foldl_mul _ hlt, hrange]
  simp only [List.map_cons, List.map_nil, List.foldl_cons, List.foldl_nil, hmask]
  norm_num
  omega

/-- Splitting the packed value recovers the two quantised fields. -/
lemma parse_of_pack (a b : ℕ) (ha : a < 2 ^ 28) (hb : b < 2 ^ 28) :
    parse_type1_location
      ((List.range 7).reverse.map (fun i => ((a * 2 ^ 28 + b) >>> (8 * i)) &&& 255)) =
      ((a : ℚ) / (u28max : ℚ) * 180 - 90, (b : ℚ) / (u28max : ℚ) * 360 - 180) := by
  have hN : a * 2 ^ 28 + b < 2 ^ 56 := by
    have h1 : a ≤ 2 ^ 28 - 1 := by omega
    have h2 : a * 2 ^ 28 ≤ (2 ^ 28 - 1) * 2 ^ 28 :=
      Nat.mul_le_mul_right _ h1
    omega
  have hmask : ((1 : ℕ) <<< 28) - 1 = 2 ^ 28 - 1 := by
    norm_num [Nat.shiftLeft_eq]
  have hhi : ((a * 2 ^ 28 + b) >>> 28) &&& ((1 <<< 28) - 1) = a := by
    rw [hmask, Nat.shiftRight_eq_div_pow, and_two_pow_sub_one_eq_mod]
    omega
  have hlo : (a * 2 ^ 28 + b) &&& ((1 <<< 28) - 1) = b := by
    rw [hmask, and_two_pow_sub_one_eq_mod]
    omega
  have hfold := unpack_bytes (a * 2 ^ 28 + b) hN
  simp only [parse_type1_location, hfold, hhi, hlo]

/-- Quantising `t ∈ [-c, c]` into a 28-bit field with truncation keeps
the field in `[0, u28max]` and the dequantised value within one
quantisation step `2c / (2^28 - 1)` of `t`. -/
lemma pyTrunc_quantize (c t : ℚ) (hc : 0 < c) (h1 : -c ≤ t) (h2 : t ≤ c) :
    0 ≤ pyTrunc ((t + c) / (2 * c) * (u28max : ℚ)) ∧
    pyTrunc ((t + c) / (2 * c) * (u28max : ℚ)) ≤ (u28max : ℤ) ∧
    |((pyTrunc ((t + c) / (2 * c) * (u28max : ℚ))).toNat : ℚ) / (u28max : ℚ) * (2 * c)
        - c - t| ≤ 2 * c / (2 ^ 28 - 1) := by
  have hS : ((u28max : ℕ) : ℚ) = 268435455 := by
    norm_num [u28max, Nat.shiftLeft_eq]
  set x : ℚ := (t + c) / (2 * c) * (u28max : ℚ) with hxdef
  have h2c : (0 : ℚ) < 2 * c := by linarith
  have hx0 : 0 ≤ x := by
    apply mul_nonneg
    · apply div_nonneg (by linarith) (by linarith)
    · rw [hS]; norm_num
  have hq1 : (t + c) / (2 * c) ≤ 1 := by
    rw [div_le_one h2c]; linarith
  have hxS : x ≤ (u28max : ℚ) := by
    calc x ≤ 1 * (u28max : ℚ) := by
            apply mul_le_mul_of_nonneg_right hq1 (by rw [hS]; norm_num)
      _ = (u28max : ℚ) := one_mul _
  have htr : pyTrunc x = ⌊x⌋ := if_pos hx0
  have hf0 : 0 ≤ ⌊x⌋ := Int.floor_nonneg.mpr hx0
  have hfS : ⌊x⌋ ≤ (u28max : ℤ) := by
    have := Int.floor_le_floor hxS
    rwa [Int.floor_natCast] at this
  refine ⟨by rw [htr]; exact hf0, by rw [htr]; exact hfS, ?_⟩
  rw [htr]
  have hcast : ((⌊x⌋.toNat : ℕ) : ℚ) = ((⌊x⌋ : ℤ) : ℚ) := by
    exact_mod_cast congrArg (fun z : ℤ => (z : ℚ)) (Int.toNat_of_nonneg hf0)
  rw [hcast, hS]
  have hfle : ((⌊x⌋ : ℤ) : ℚ) ≤ x := Int.floor_le x
  have hfgt : x - 1 < ((⌊x⌋ : ℤ) : ℚ) := Int.sub_one_lt_floor x
  have hx2 : x * (2 * c) = (t + c) * 268435455 := by
    rw [hxdef, hS]
    field_simp
  have hb : ((2 : ℚ) ^ 28 - 1) = 268435455 := by norm_num
  rw [hb, abs_le]
  constructor
  · have hA : (x - 1) * (2 * c) < ((⌊x⌋ : ℤ) : ℚ) * (2 * c) :=
      mul_lt_mul_of_pos_right hfgt h2c
    nlinarith [hA, hx2]
  · have hB : ((⌊x⌋ : ℤ) : ℚ) * (2 * c) ≤ x * (2 * c) :=
      mul_le_mul_of_nonneg_right hfle (le_of_lt h2c)
    nlinarith [hB, hx2]

/-- When both quantised fields are nonnegative, the emitted byte list is
the big-endian byte decomposition of the packed 56-bit value. -/
lemma encode_location_eq_bytes (lat lon : ℚ) (a b : ℕ)
    (hlat : pyTrunc ((lat + 90) / 180 * (u28max : ℚ)) = (a : ℤ))
    (hlon : pyTrunc ((lon + 180) / 360 * (u28max : ℚ)) = (b : ℤ)) :
    encode_location lat lon =
      ((List.range 7).reverse.map
        (fun i => (((a <<< 28) ||| b) >>> (8 * i)) &&& 255)).map
        (fun n : ℕ => (n : ℤ)) := by
  simp only [encode_location, hlat, hlon]
  have hval : Int.lor ((a : ℤ) <<< (28 : ℤ)) (b : ℤ) =
      ((((a <<< 28) ||| b : ℕ)) : ℤ) := by
    rw [show ((a : ℤ) <<< (28 : ℤ)) = (((a <<< 28 : ℕ)) : ℤ) from
      Int.shiftLeft_coe_nat a 28]
    rfl
  rw [hval, List.map_map]
  refine List.map_congr_left ?_
  intro i _
  show Int.land ((((a <<< 28) ||| b : ℕ) : ℤ) >>> ((8 * i : ℕ) : ℤ)) 0xFF =
    (((((a <<< 28) ||| b) >>> (8 * i)) &&& 255 : ℕ) : ℤ)
  rw [Int.shiftRight_coe_nat]
  rfl

/-- C1: Location codec round-trip.  For every `(lat, lon)` with
`lat ∈ [-90, 90]` and `lon ∈ [-180, 180]`, the 7 entries emitted by
`encode_location` are valid byte values, and decoding them with
`parse_type1_location` yields coordinates within one quantisation step
of the originals: `|lat2 - lat| ≤ 180/(2^28-1)` and
`|lon2 - lon| ≤ 360/(2^28-1)`. -/
theorem location_roundtrip (lat lon : ℚ)
    (hlat0 : -90 ≤ lat) (hlat1 : lat ≤ 90) (hlon0 : -180 ≤ lon) (hlon1 : lon ≤ 180) :
    (∀ byte ∈ encode_location lat lon, 0 ≤ byte ∧ byte ≤ 255) ∧
    |(parse_type1_location ((encode_location lat lon).map Int.toNat)).1 - lat|
      ≤ 180 / (2 ^ 28 - 1) ∧
    |(parse_type1_location ((encode_location lat lon).map Int.toNat)).2 - lon|
      ≤ 360 / (2 ^ 28 - 1) := by
  have humax : (u28max : ℤ) = 268435455 := by norm_num [u28max, Nat.shiftLeft_eq]
  obtain ⟨ha0, haS, habound⟩ := pyTrunc_quantize 90 lat (by norm_num) hlat0 hlat1
  obtain ⟨hb0, hbS, hbbound⟩ := pyTrunc_quantize 180 lon (by norm_num) hlon0 hlon1
  have h90 : (2 : ℚ) * 90 = 180 := by norm_num
  have h180 : (2 : ℚ) * 180 = 360 := by norm_num
  rw [h90] at ha0 haS habound
  rw [h180] at hb0 hbS hbbound
  set xa : ℚ := (lat + 90) / 180 * (u28max : ℚ) with hxa
  set xb : ℚ := (lon + 180) / 360 * (u28max : ℚ) with hxb
  set a : ℕ := (pyTrunc xa).toNat with hadef
  set b : ℕ := (pyTrunc xb).toNat with hbdef
  have hA : pyTrunc xa = (a : ℤ) := (Int.toNat_of_nonneg ha0).symm
  have hB : pyTrunc xb = (b : ℤ) := (Int.toNat_of_nonneg hb0).symm
  have ha28 : a < 2 ^ 28 := by
    have : (a : ℤ) ≤ 268435455 := by rw [← hA, ← humax]; exact haS
    omega
  have hb28 : b < 2 ^ 28 := by
    have : (b : ℤ) ≤ 268435455 := by rw [← hB, ← humax]; exact hbS
    omega
  have henc := encode_location_eq_bytes lat lon a b hA hB
  have hpack : (a <<< 28) ||| b = a * 2 ^ 28 + b := lor_shiftLeft_eq_add a b 28 hb28
  refine ⟨?_, ?_, ?_⟩
  · intro byte hbyte
    rw [henc] at hbyte
    simp only [List.mem_map] at hbyte
    obtain ⟨n, ⟨i, _, rfl⟩, rfl⟩ := hbyte
    constructor
    · exact Int.natCast_nonneg _
    · have : (((a <<< 28) ||| b) >>> (8 * i)) &&& 255 ≤ 255 := Nat.and_le_right
      exact_mod_cast this
  · rw [henc, List.map_map]
    have hid : (Int.toNat ∘ fun n : ℕ => (n : ℤ)) = id := by
      funext n
      simp [Function.comp]
    rw [hid, List.map_id]
    simp only [hpack]
    rw [parse_of_pack a b ha28 hb28]
    exact habound
  · rw [henc, List.map_map]
    have hid : (Int.toNat ∘ fun n : ℕ => (n : ℤ)) = id := by
      funext n
      simp [Function.comp]
    rw [hid, List.map_id]
    simp only [hpack]
    rw [parse_of_pack a b ha28 hb28]
    exact hbbound

/-- Witness for C1: the round-trip bound instantiated at the concrete
in-range input `(lat, lon) = (0, 0)`. -/
theorem location_roundtrip_witness :
    (∀ byte ∈ encode_location 0 0, 0 ≤ byte ∧ byte ≤ 255) ∧
    |(parse_type1_location ((encode_location 0 0).map Int.toNat)).1 - 0|
      ≤ 180 / (2 ^ 28 - 1) ∧
    |(parse_type1_location ((encode_location 0 0).map Int.toNat)).2 - 0|
      ≤ 360 / (2 ^ 28 - 1) :=
  location_roundtrip 0 0 (by norm_num) (by norm_num) (by norm_num) (by norm_num)

/-- C5: DeviceIdResolver is total over u32 (it returns a string for
every input) and matches the reference inputs of the specification:
bytes `38 55 34 41` ("8U4A") resolve through the ASCII branch, the
integer 1 resolves through the zero-padded numeric fallback to "0001",
and the integer 1001 (whose bytes are not printable ASCII) resolves
through the numeric fallback to "1001". -/
theorem resolveSenderUuid_reference_values :
    (∀ n : ℕ, ∃ s : String, resolveSenderUuid n = s) ∧
    resolveSenderUuid 0x38553441 = "8U4A" ∧
    resolveSenderUuid 1 = "0001" ∧
    resolveSenderUuid 1001 = "1001" :=
  ⟨fun n => ⟨resolveSenderUuid n, rfl⟩, by decide, by decide, by decide⟩

/-- C10: device-id resolution is not injective: the sender id
0x31303031 (ASCII "1001", taken by the printable-ASCII branch) and the
sender id 1001 (taken by the zero-padded numeric fallback) are distinct
32-bit values that resolve to the same device id. -/
theorem resolveSenderUuid_not_injective :
    resolveSenderUuid 825241649 = "1001" ∧
    resolveSenderUuid 1001 = "1001" ∧
    (825241649 : ℕ) ≠ 1001 :=
  ⟨by decide, by decide, by decide⟩

lemma digitsTail_of_all_digits (l : List ℕ)
    (h : ∀ c ∈ l, isAsciiDigit c = true) : digitsTail l = true := by
  induction l with
  | nil => rfl
  | cons c rest ih =>
    have hc := h c (List.mem_cons_self c rest)
    rw [digitsTail.eq_def]
    simp [hc, ih (fun x hx => h x (List.mem_cons_of_mem c hx))]

lemma dropWhile_of_no_space (l : List ℕ)
    (h : ∀ c ∈ l, isPySpace c = false) : l.dropWhile isPySpace = l := by
  cases l with
  | nil => rfl
  | cons c rest => simp [List.dropWhile_cons, h c (List.mem_cons_self c rest)]

lemma stripPySpaces_of_no_space (l : List ℕ)
    (h : ∀ c ∈ l, isPySpace c = false) : stripPySpaces l = l := by
  unfold stripPySpaces
  rw [dropWhile_of_no_space l h]
  rw [dropWhile_of_no_space l.reverse (fun c hc => h c (List.mem_reverse.mp hc))]
  exact List.reverse_reverse l

/-- Python `int()` of a plain nonempty digit string is its decimal
value. -/
lemma pyIntParse_all_digits (l : List ℕ) (hne : l ≠ [])
    (h : ∀ c ∈ l, isAsciiDigit c = true) :
    pyIntParse l = some (digitsVal l : ℤ) := by
  have hnospace : ∀ c ∈ l, isPySpace c = false := by
    intro c hc
    have := h c hc
    simp only [isAsciiDigit, Bool.and_eq_true, decide_eq_true_eq] at this
    apply Bool.eq_false_iff.mpr
    intro htrue
    simp only [isPySpace, Bool.or_eq_true, Bool.and_eq_true, decide_eq_true_eq] at htrue
    omega
  have hstrip := stripPySpaces_of_no_space l hnospace
  cases l with
  | nil => exact absurd rfl hne
  | cons c rest =>
    have hc := h c (List.mem_cons_self c rest)
    have hcbounds : 48 ≤ c ∧ c ≤ 57 := by
      simpa [isAsciiDigit, decide_eq_true_eq] using hc
    have h43 : c ≠ 43 := by omega
    have h45 : c ≠ 45 := by omega
    have hfilter : (c :: rest).filter (fun x => x != 95) = c :: rest := by
      rw [List.filter_eq_self]
      intro a ha
      have := h a ha
      simp only [isAsciiDigit, Bool.and_eq_true, decide_eq_true_eq] at this
      simp only [bne_iff_ne, ne_eq]
      omega
    have hok : okDigits (c :: rest) = true := by
      simp [okDigits, hc,
        digitsTail_of_all_digits rest (fun x hx => h x (List.mem_cons_of_mem c hx))]
    unfold pyIntParse
    rw [hstrip]
    simp [h43, h45, pyIntCore, hok, hfilter]

/-- C6 counterexample: the percentage bytes `2D 35` (ASCII "-5") are not
ASCII digits, yet the decoded percentage is -5, not the claimed lenient
default 0 (and it also falls outside the claimed 0-99 range).  Python
`int()` accepts an optional sign, so the sub-field does not default to
0 whenever its bytes are non-numeric. -/
theorem parse_type3_battery_counterexample :
    isAsciiDigit 45 = false ∧
    (parse_type3_battery [45, 53, 48, 48, 48, 48, 49]).1 = -5 ∧
    (parse_type3_battery [45, 53, 48, 48, 48, 48, 49]).1 ≠ 0 :=
  ⟨by decide, by decide, by decide⟩

/-- C6 (amended): type-3 decoding is total, and on the intended inputs
it behaves as claimed: when bytes 0-1 are both ASCII digits the
percentage is their two-digit value, necessarily in 0-99, and when
bytes 2-6 are all ASCII digits the seconds-remaining is their
five-digit value, necessarily in 0-99999.  (For other byte patterns the
sub-field is whatever Python `int()` makes of the ASCII-filtered text,
with 0 only as the failure default - see the counterexample.) -/
theorem parse_type3_battery_digit_fields (b0 b1 b2 b3 b4 b5 b6 : ℕ) :
    ((isAsciiDigit b0 = true ∧ isAsciiDigit b1 = true) →
      (parse_type3_battery [b0, b1, b2, b3, b4, b5, b6]).1 =
          10 * ((b0 : ℤ) - 48) + ((b1 : ℤ) - 48) ∧
      0 ≤ (parse_type3_battery [b0, b1, b2, b3, b4, b5, b6]).1 ∧
      (parse_type3_battery [b0, b1, b2, b3, b4, b5, b6]).1 ≤ 99) ∧
    ((isAsciiDigit b2 = true ∧ isAsciiDigit b3 = true ∧ isAsciiDigit b4 = true ∧
        isAsciiDigit b5 = true ∧ isAsciiDigit b6 = true) →
      (parse_type3_battery [b0, b1, b2, b3, b4, b5, b6]).2 =
          10000 * ((b2 : ℤ) - 48) + 1000 * ((b3 : ℤ) - 48) + 100 * ((b4 : ℤ) - 48) +
            10 * ((b5 : ℤ) - 48) + ((b6 : ℤ) - 48) ∧
      0 ≤ (parse_type3_battery [b0, b1, b2, b3, b4, b5, b6]).2 ∧
      (parse_type3_battery [b0, b1, b2, b3, b4, b5, b6]).2 ≤ 99999) := by
  constructor
  · rintro ⟨h0, h1⟩
    have hb0 : 48 ≤ b0 ∧ b0 ≤ 57 := by
      simpa [isAsciiDigit, decide_eq_true_eq] using h0
    have hb1 : 48 ≤ b1 ∧ b1 ≤ 57 := by
      simpa [isAsciiDigit, decide_eq_true_eq] using h1
    have htake : ([b0, b1, b2, b3, b4, b5, b6].take 2) = [b0, b1] := rfl
    have hfilt : ([b0, b1].filter (fun b => decide (b < 128))) = [b0, b1] := by
      rw [List.filter_eq_self]
      intro a ha
      simp only [List.mem_cons, List.not_mem_nil, or_false] at ha
      rcases ha with rfl | rfl <;> simp <;> omega
    have hdigits : ∀ c ∈ [b0, b1], isAsciiDigit c = true := by
      intro c hc
      simp only [List.mem_cons, List.not_mem_nil, or_false] at hc
      rcases hc with rfl | rfl <;> assumption
    have hparse := pyIntParse_all_digits [b0, b1] (by simp) hdigits
    have hval : (parse_type3_battery [b0, b1, b2, b3, b4, b5, b6]).1 =
        (digitsVal [b0, b1] : ℤ) := by
      simp only [parse_type3_battery, htake, hfilt, hparse, Option.getD_some]
    rw [hval]
    have hdv : digitsVal [b0, b1] = (b0 - 48) * 10 + (b1 - 48) := by
      simp [digitsVal]
    rw [hdv]
    refine ⟨by push_cast [hb0.1, hb1.1]; ring, by positivity, ?_⟩
    have : (b0 - 48) * 10 + (b1 - 48) ≤ 99 := by omega
    exact_mod_cast this
  · rintro ⟨h2, h3, h4, h5, h6⟩
    have hb2 : 48 ≤ b2 ∧ b2 ≤ 57 := by
      simpa [isAsciiDigit, decide_eq_true_eq] using h2
    have hb3 : 48 ≤ b3 ∧ b3 ≤ 57 := by
      simpa [isAsciiDigit, decide_eq_true_eq] using h3
    have hb4 : 48 ≤ b4 ∧ b4 ≤ 57 := by
      simpa [isAsciiDigit, decide_eq_true_eq] using h4
    have hb5 : 48 ≤ b5 ∧ b5 ≤ 57 := by
      simpa [isAsciiDigit, decide_eq_true_eq] using h5
    have hb6 : 48 ≤ b6 ∧ b6 ≤ 57 := by
      simpa [isAsciiDigit, decide_eq_true_eq] using h6
    have hdrop : (([b0, b1, b2, b3, b4, b5, b6].drop 2).take 5) = [b2, b3, b4, b5, b6] := rfl
    have hfilt : ([b2, b3, b4, b5, b6].filter (fun b => decide (b < 128))) =
        [b2, b3, b4, b5, b6] := by
      rw [List.filter_eq_self]
      intro a ha
      simp only [List.mem_cons, List.not_mem_nil, or_false] at ha
      rcases ha with rfl | rfl | rfl | rfl | rfl <;> simp <;> omega
    have hdigits : ∀ c ∈ [b2, b3, b4, b5, b6], isAsciiDigit c = true := by
      intro c hc
      simp only [List.mem_cons, List.not_mem_nil, or_false] at hc
      rcases hc with rfl | rfl | rfl | rfl | rfl <;> assumption
    have hparse := pyIntParse_all_digits [b2, b3, b4, b5, b6] (by simp) hdigits
    have hval : (parse_type3_battery [b0, b1, b2, b3, b4, b5, b6]).2 =
        (digitsVal [b2, b3, b4, b5, b6] : ℤ) := by
      simp only [parse_type3_battery, hdrop, hfilt, hparse, Option.getD_some]
    rw [hval]
    have hdv : digitsVal [b2, b3, b4, b5, b6] =
        (((b2 - 48) * 10 + (b3 - 48)) * 10 + (b4 - 48)) * 10 * 10 +
          (b5 - 48) * 10 + (b6 - 48) := by
      simp [digitsVal]
      ring
    rw [hdv]
    refine ⟨?_, by positivity, ?_⟩
    · push_cast [hb2.1, hb3.1, hb4.1, hb5.1, hb6.1]
      ring
    · have : (((b2 - 48) * 10 + (b3 - 48)) * 10 + (b4 - 48)) * 10 * 10 +
          (b5 - 48) * 10 + (b6 - 48) ≤ 99999 := by omega
      exact_mod_cast this

/-- Witness for C6 (amended): the digit-field characterisation applied
to the concrete payload "2503600" (25 percent, 3600 seconds). -/
theorem parse_type3_battery_digit_fields_witness :
    ((parse_type3_battery [50, 53, 48, 51, 54, 48, 48]).1 =
        10 * ((50 : ℤ) - 48) + ((53 : ℤ) - 48) ∧
      0 ≤ (parse_type3_battery [50, 53, 48, 51, 54, 48, 48]).1 ∧
      (parse_type3_battery [50, 53, 48, 51, 54, 48, 48]).1 ≤ 99) ∧
    ((parse_type3_battery [50, 53, 48, 51, 54, 48, 48]).2 =
        10000 * ((48 : ℤ) - 48) + 1000 * ((51 : ℤ) - 48) + 100 * ((54 : ℤ) - 48) +
          10 * ((48 : ℤ) - 48) + ((48 : ℤ) - 48) ∧
      0 ≤ (parse_type3_battery [50, 53, 48, 51, 54, 48, 48]).2 ∧
      (parse_type3_battery [50, 53, 48, 51, 54, 48, 48]).2 ≤ 99999) :=
  ⟨(parse_type3_battery_digit_fields 50 53 48 51 54 48 48).1 ⟨by decide, by decide⟩,
   (parse_type3_battery_digit_fields 50 53 48 51 54 48 48).2
     ⟨by decide, by decide, by decide, by decide, by decide⟩⟩

/-- C7: envelope decoding fails exactly on inputs that are not 20 bytes
long.  Every 20-byte input decodes successfully into the three
big-endian header words, the payload-type byte 12 and payload bytes
13-19; every other length yields the length error. -/
theorem parse_message_bytes_length_dichotomy (message_bytes : List ℕ) :
    (message_bytes.length = 20 →
      parse_message_bytes message_bytes = Except.ok
        { message_id := message_bytes.getD 0 0 * 2 ^ 24 + message_bytes.getD 1 0 * 2 ^ 16 +
            message_bytes.getD 2 0 * 2 ^ 8 + message_bytes.getD 3 0
          sender_id := message_bytes.getD 4 0 * 2 ^ 24 + message_bytes.getD 5 0 * 2 ^ 16 +
            message_bytes.getD 6 0 * 2 ^ 8 + message_bytes.getD 7 0
          timestamp := message_bytes.getD 8 0 * 2 ^ 24 + message_bytes.getD 9 0 * 2 ^ 16 +
            message_bytes.getD 10 0 * 2 ^ 8 + message_bytes.getD 11 0
          payload_type := message_bytes.getD 12 0
          payload_data := [message_bytes.getD 13 0, message_bytes.getD 14 0,
            message_bytes.getD 15 0, message_bytes.getD 16 0, message_bytes.getD 17 0,
            message_bytes.getD 18 0, message_bytes.getD 19 0] }) ∧
    (message_bytes.length ≠ 20 →
      parse_message_bytes message_bytes =
        Except.error
          ("Message must be exactly 20 bytes, got " ++ toString message_bytes.length)) := by
  constructor
  · intro h20
    rcases message_bytes with _ | ⟨b0, _ | ⟨b1, _ | ⟨b2, _ | ⟨b3, _ | ⟨b4, _ | ⟨b5, _ |
      ⟨b6, _ | ⟨b7, _ | ⟨b8, _ | ⟨b9, _ | ⟨b10, _ | ⟨b11, _ | ⟨b12, _ | ⟨b13, _ |
      ⟨b14, _ | ⟨b15, _ | ⟨b16, _ | ⟨b17, _ | ⟨b18, _ | ⟨b19, rest⟩⟩⟩⟩⟩⟩⟩⟩⟩⟩⟩⟩⟩⟩⟩⟩⟩⟩⟩⟩ <;>
      simp only [List.length_cons, List.length_nil] at h20 <;> try omega
    have hrest : rest = [] := by
      cases rest with
      | nil => rfl
      | cons x t => simp at h20
    subst hrest
    have hok : parse_message_bytes
        [b0, b1, b2, b3, b4, b5, b6, b7, b8, b9, b10, b11, b12, b13, b14, b15,
          b16, b17, b18, b19] = Except.ok
        { message_id := be32 [b0, b1, b2, b3]
          sender_id := be32 [b4, b5, b6, b7]
          timestamp := be32 [b8, b9, b10, b11]
          payload_type := b12
          payload_data := [b13, b14, b15, b16, b17, b18, b19] } := rfl
    rw [hok]
    simp only [Except.ok.injEq, ParsedMessage.mk.injEq, be32, List.foldl_cons,
      List.foldl_nil, List.getD_cons_zero, List.getD_cons_succ]
    and_intros <;> ring_nf
  · intro hne
    simp [parse_message_bytes, hne]

/-- Witness for C7: the dichotomy applied to a concrete 20-byte message
(decodes to header words 1, 2, 3, payload type 4, payload bytes 5-11)
and to a concrete 3-byte message (rejected with the length error). -/
theorem parse_message_bytes_length_dichotomy_witness :
    parse_message_bytes
        [0, 0, 0, 1, 0, 0, 0, 2, 0, 0, 0, 3, 4, 5, 6, 7, 8, 9, 10, 11] =
      Except.ok
        { message_id := 1, sender_id := 2, timestamp := 3, payload_type := 4
          payload_data := [5, 6, 7, 8, 9, 10, 11] } ∧
    parse_message_bytes [1, 2, 3] =
      Except.error ("Message must be exactly 20 bytes, got " ++ toString (3 : ℕ)) := by
  constructor
  · exact (parse_message_bytes_length_dichotomy
      [0, 0, 0, 1, 0, 0, 0, 2, 0, 0, 0, 3, 4, 5, 6, 7, 8, 9, 10, 11]).1 rfl
  · exact (parse_message_bytes_length_dichotomy [1, 2, 3]).2 (by decide)

lemma findUser_mem {users : List UserRecord} {uuid : String} {u : UserRecord}
    (h : findUser users uuid = some u) : u ∈ users :=
  List.mem_of_find?_eq_some h

lemma findUser_uuid {users : List UserRecord} {uuid : String} {u : UserRecord}
    (h : findUser users uuid = some u) : u.uuid = uuid := by
  have := List.find?_some h
  exact eq_of_beq this

/-- Rewriting the first uuid match commutes with looking it up, as long
as the rewrite preserves the uuid. -/
lemma updateFirst_findUser (users : List UserRecord) (uuid : String)
    (f : UserRecord → UserRecord) (hf : ∀ u, (f u).uuid = u.uuid) :
    findUser (updateFirst users uuid f) uuid = (findUser users uuid).map f := by
  induction users with
  | nil => rfl
  | cons u rest ih =>
    by_cases h : u.uuid = uuid
    · have hb : (u.uuid == uuid) = true := beq_iff_eq.mpr h
      have hfb : ((f u).uuid == uuid) = true := beq_iff_eq.mpr (by rw [hf u]; exact h)
      have e1 : updateFirst (u :: rest) uuid f = f u :: rest := by
        simp [updateFirst, hb]
      rw [e1]
      unfold findUser
      rw [@List.find?_cons_of_pos _ (fun v : UserRecord => v.uuid == uuid) (f u) rest hfb,
        @List.find?_cons_of_pos _ (fun v : UserRecord => v.uuid == uuid) u rest hb]
      rfl
    · have hb : (u.uuid == uuid) = false := by simpa using h
      have hnb : ¬ ((u.uuid == uuid) = true) := by simp [hb]
      have e1 : updateFirst (u :: rest) uuid f = u :: updateFirst rest uuid f := by
        simp [updateFirst, hb]
      rw [e1]
      unfold findUser
      rw [@List.find?_cons_of_neg _ (fun v : UserRecord => v.uuid == uuid) u
          (updateFirst rest uuid f) hnb,
        @List.find?_cons_of_neg _ (fun v : UserRecord => v.uuid == uuid) u rest hnb]
      exact ih

lemma dupCheck_true_of_mem {users : List UserRecord} {uuid : String} {mid : ℕ}
    {u : UserRecord} (hmem : u ∈ users) (huuid : u.uuid = uuid)
    (hmid : u.messages.any (fun mo => mo.message_id == mid) = true) :
    dupCheck users uuid mid = true := by
  unfold dupCheck
  rw [List.any_eq_true]
  exact ⟨u, hmem, by simp [huuid, hmid]⟩

lemma dupCheck_false_of {users : List UserRecord} {uuid : String} {mid : ℕ}
    (h : ∀ u ∈ users, u.uuid = uuid →
      u.messages.any (fun mo => mo.message_id == mid) = false) :
    dupCheck users uuid mid = false := by
  unfold dupCheck
  rw [List.any_eq_false]
  intro u hu
  by_cases huuid : u.uuid = uuid
  · simp [huuid, h u hu huuid]
  · simp [huuid]

/-- A duplicate type-4 delivery reduces to a pure processed-count bump:
no store write happens at all. -/
lemma processMessage_type4_dup (b64decode : String → Option (List ℕ))
    (utf8ignore : List ℕ → List Char) (now idx : ℕ) (st : IngestState)
    (m : String) (message_bytes : List ℕ) (parsed : ParsedMessage) (u : UserRecord)
    (htd : transportDecode b64decode m = some message_bytes)
    (hp : parse_message_bytes message_bytes = Except.ok parsed)
    (hpt : parsed.payload_type = 4)
    (hfind : findUser st.users (resolveSenderUuid parsed.sender_id) = some u)
    (hdc : dupCheck st.users (resolveSenderUuid parsed.sender_id) parsed.message_id
      = true) :
    processMessage b64decode utf8ignore now st idx m =
      { st with processed := st.processed + 1 } := by
  simp [processMessage, htd, hp, hfind, hpt, hdc]

/-- A first-time type-4 delivery appends the message object to the
record and bumps the processed count. -/
lemma processMessage_type4_new (b64decode : String → Option (List ℕ))
    (utf8ignore : List ℕ → List Char) (now idx : ℕ) (st : IngestState)
    (m : String) (message_bytes : List ℕ) (parsed : ParsedMessage) (u : UserRecord)
    (htd : transportDecode b64decode m = some message_bytes)
    (hp : parse_message_bytes message_bytes = Except.ok parsed)
    (hpt : parsed.payload_type = 4)
    (hfind : findUser st.users (resolveSenderUuid parsed.sender_id) = some u)
    (hdc : dupCheck st.users (resolveSenderUuid parsed.sender_id) parsed.message_id
      = false) :
    processMessage b64decode utf8ignore now st idx m =
      { st with
        users := updateFirst st.users (resolveSenderUuid parsed.sender_id)
          (appendMessage parsed (parse_type4_message utf8ignore parsed.payload_data) now)
        processed := st.processed + 1 } := by
  simp [processMessage, htd, hp, hfind, hpt, hdc, appendMessage]
  rfl

/-- Each batch element contributes exactly one unit: either one
processed message or one recorded error, never both, never neither, and
never an abort. -/
lemma processMessage_adds_one (b64decode : String → Option (List ℕ))
    (utf8ignore : List ℕ → List Char) (now : ℕ) (st : IngestState) (idx : ℕ)
    (m : String) :
    (processMessage b64decode utf8ignore now st idx m).processed +
      (processMessage b64decode utf8ignore now st idx m).errors.length =
      st.processed + st.errors.length + 1 := by
  unfold processMessage
  cases htd : transportDecode b64decode m with
  | none =>
    simp [htd, List.length_append]
    try omega
  | some message_bytes =>
    cases hp : parse_message_bytes message_bytes with
    | error e =>
      simp [htd, hp, List.length_append]
      try omega
    | ok parsed =>
      cases hf : findUser st.users (resolveSenderUuid parsed.sender_id) with
      | none =>
        simp [htd, hp, hf, List.length_append]
        try omega
      | some u =>
        simp only [htd, hp, hf]
        repeat' split
        all_goals simp [List.length_append]
        all_goals try omega

/-- Invariant of the batch fold: processed plus errors grows by exactly
the number of messages consumed. -/
lemma receive_loop_adds (b64decode : String → Option (List ℕ))
    (utf8ignore : List ℕ → List Char) (now : ℕ) :
    ∀ (messages : List String) (st : IngestState) (idx : ℕ),
      ((messages.foldl
        (fun acc m => (processMessage b64decode utf8ignore now acc.1 acc.2 m, acc.2 + 1))
        (st, idx)).1).processed +
      ((messages.foldl
        (fun acc m => (processMessage b64decode utf8ignore now acc.1 acc.2 m, acc.2 + 1))
        (st, idx)).1).errors.length =
      st.processed + st.errors.length + messages.length := by
  intro messages
  induction messages with
  | nil => intro st idx; simp
  | cons m t ih =>
    intro st idx
    simp only [List.foldl_cons]
    have hstep := processMessage_adds_one b64decode utf8ignore now st idx m
    have htail := ih (processMessage b64decode utf8ignore now st idx m) (idx + 1)
    simp only [List.length_cons]
    omega

/-- C8: per-message isolation of batch ingestion.  For every batch (and
every behaviour of the black-box base64 and UTF-8 decoders), the call
returns a response whose `total` is the batch size and in which every
message is accounted for exactly once: `processed + |errors| = total`.
In particular no per-message failure (invalid encoding, envelope decode
error, unknown device, unknown payload type) aborts the batch, and the
fold is a total function, so a well-formed batch never raises. -/
theorem receive_byte_string_per_message_isolation
    (b64decode : String → Option (List ℕ)) (utf8ignore : List ℕ → List Char)
    (now : ℕ) (users : List UserRecord) (messages : List String) :
    (receive_byte_string b64decode utf8ignore now users messages).total =
      messages.length ∧
    (receive_byte_string b64decode utf8ignore now users messages).processed +
      (receive_byte_string b64decode utf8ignore now users messages).errors.length =
      messages.length := by
  refine ⟨rfl, ?_⟩
  have := receive_loop_adds b64decode utf8ignore now messages
    { users := users, processed := 0, errors := [] } 0
  simpa [receive_byte_string] using this

/-- C9: implicit frame property of duplicate delivery.  When a type-4
message arrives whose message id already exists in the target device
record, the users collection is left entirely unchanged - in particular
the record itself, including updated_at, is not refreshed - no error is
recorded, and the processed counter is still incremented. -/
theorem duplicate_type4_keeps_record (b64decode : String → Option (List ℕ))
    (utf8ignore : List ℕ → List Char) (now idx : ℕ) (st : IngestState)
    (m : String) (message_bytes : List ℕ) (parsed : ParsedMessage) (u : UserRecord)
    (htd : transportDecode b64decode m = some message_bytes)
    (hp : parse_message_bytes message_bytes = Except.ok parsed)
    (hpt : parsed.payload_type = 4)
    (hfind : findUser st.users (resolveSenderUuid parsed.sender_id) = some u)
    (hdup : u.messages.any (fun mo => mo.message_id == parsed.message_id) = true) :
    (processMessage b64decode utf8ignore now st idx m).users = st.users ∧
    (processMessage b64decode utf8ignore now st idx m).processed = st.processed + 1 ∧
    (processMessage b64decode utf8ignore now st idx m).errors = st.errors := by
  have hdc := dupCheck_true_of_mem (findUser_mem hfind) (findUser_uuid hfind) hdup
  rw [processMessage_type4_dup b64decode utf8ignore now idx st m message_bytes parsed u
    htd hp hpt hfind hdc]
  exact ⟨rfl, rfl, rfl⟩

/-- Witness for C9: the frame property applied to a concrete duplicate
type-4 message aimed at the record of device "0001". -/
theorem duplicate_type4_keeps_record_witness :
    (processMessage (fun _ => none) (fun _ => []) 99
        { users := [witnessUserDup], processed := 0, errors := [] } 0
        witnessHexType4).users = [witnessUserDup] ∧
    (processMessage (fun _ => none) (fun _ => []) 99
        { users := [witnessUserDup], processed := 0, errors := [] } 0
        witnessHexType4).processed = 1 ∧
    (processMessage (fun _ => none) (fun _ => []) 99
        { users := [witnessUserDup], processed := 0, errors := [] } 0
        witnessHexType4).errors = [] :=
  duplicate_type4_keeps_record (fun _ => none) (fun _ => []) 99 0
    { users := [witnessUserDup], processed := 0, errors := [] }
    witnessHexType4 witnessBytesType4 witnessParsedType4 witnessUserDup
    (by decide) rfl (by decide) (by decide) (by decide)

/-- C3: type-4 dedup is idempotent.  Ingesting the same type-4 message
twice (same message id, same device) against a store whose records keep
message ids unique leaves exactly one entry with that message id in the
device record, counts both submissions as processed, and records no
error. -/
theorem type4_dedup_idempotent (b64decode : String → Option (List ℕ))
    (utf8ignore : List ℕ → List Char) (now : ℕ) (users : List UserRecord)
    (m : String) (message_bytes : List ℕ) (parsed : ParsedMessage) (u : UserRecord)
    (htd : transportDecode b64decode m = some message_bytes)
    (hp : parse_message_bytes message_bytes = Except.ok parsed)
    (hpt : parsed.payload_type = 4)
    (hfind : findUser users (resolveSenderUuid parsed.sender_id) = some u)
    (huniq : ∀ v ∈ users, v.uuid = resolveSenderUuid parsed.sender_id → v = u)
    (hcount :
      (u.messages.filter (fun mo => mo.message_id == parsed.message_id)).length ≤ 1) :
    ∃ w, findUser (receive_byte_string b64decode utf8ignore now users [m, m]).users
        (resolveSenderUuid parsed.sender_id) = some w ∧
      (w.messages.filter (fun mo => mo.message_id == parsed.message_id)).length = 1 ∧
      (receive_byte_string b64decode utf8ignore now users [m, m]).processed = 2 ∧
      (receive_byte_string b64decode utf8ignore now users [m, m]).errors = [] := by
  set ruuid := resolveSenderUuid parsed.sender_id with hruuid
  rcases Nat.le_one_iff_eq_zero_or_eq_one.mp hcount with hc0 | hc1
  · -- the record does not contain the id yet: first pass appends,
    -- second pass is deduplicated
    have hfilnil : u.messages.filter (fun mo => mo.message_id == parsed.message_id) = [] :=
      List.length_eq_zero.mp hc0
    have hanyfalse :
        u.messages.any (fun mo => mo.message_id == parsed.message_id) = false := by
      rw [List.any_eq_false]
      exact List.filter_eq_nil_iff.mp hfilnil
    have hdc1 : dupCheck users ruuid parsed.message_id = false := by
      apply dupCheck_false_of
      intro v hv hvuuid
      rw [huniq v hv hvuuid]
      exact hanyfalse
    set f := appendMessage parsed (parse_type4_message utf8ignore parsed.payload_data) now
      with hf
    have hfuuid : ∀ v : UserRecord, (f v).uuid = v.uuid := fun v => rfl
    have hstep1 := processMessage_type4_new b64decode utf8ignore now 0
      { users := users, processed := 0, errors := [] } m message_bytes parsed u
      htd hp hpt hfind hdc1
    have hfind2 : findUser (updateFirst users ruuid f) ruuid = some (f u) := by
      rw [updateFirst_findUser users ruuid f hfuuid, hfind]
      rfl
    have hany2 : (f u).messages.any (fun mo => mo.message_id == parsed.message_id)
        = true := by
      simp [hf, appendMessage, List.any_append]
    have hdc2 : dupCheck (updateFirst users ruuid f) ruuid parsed.message_id = true :=
      dupCheck_true_of_mem (findUser_mem hfind2) (findUser_uuid hfind2) hany2
    have husers1 :
        (processMessage b64decode utf8ignore now
          { users := users, processed := 0, errors := [] } 0 m).users =
        updateFirst users ruuid f := by
      rw [hstep1]
    have hfind2x : findUser (processMessage b64decode utf8ignore now
        { users := users, processed := 0, errors := [] } 0 m).users ruuid =
        some (f u) := by
      rw [husers1]
      exact hfind2
    have hdc2x : dupCheck (processMessage b64decode utf8ignore now
        { users := users, processed := 0, errors := [] } 0 m).users ruuid
        parsed.message_id = true := by
      rw [husers1]
      exact hdc2
    have hstep2 := processMessage_type4_dup b64decode utf8ignore now 1
      (processMessage b64decode utf8ignore now
        { users := users, processed := 0, errors := [] } 0 m)
      m message_bytes parsed (f u) htd hp hpt hfind2x hdc2x
    have husers : (receive_byte_string b64decode utf8ignore now users [m, m]).users =
        updateFirst users ruuid f := by
      show (processMessage b64decode utf8ignore now
        (processMessage b64decode utf8ignore now
          { users := users, processed := 0, errors := [] } 0 m) 1 m).users = _
      rw [hstep2]
      exact husers1
    have hproc : (receive_byte_string b64decode utf8ignore now users [m, m]).processed
        = 2 := by
      show (processMessage b64decode utf8ignore now
        (processMessage b64decode utf8ignore now
          { users := users, processed := 0, errors := [] } 0 m) 1 m).processed = 2
      rw [hstep2, hstep1]
    have herr : (receive_byte_string b64decode utf8ignore now users [m, m]).errors
        = [] := by
      show (processMessage b64decode utf8ignore now
        (processMessage b64decode utf8ignore now
          { users := users, processed := 0, errors := [] } 0 m) 1 m).errors = []
      rw [hstep2, hstep1]
    refine ⟨f u, by rw [husers]; exact hfind2, ?_, hproc, herr⟩
    simp [hf, appendMessage, List.filter_append, hfilnil]
  · -- the record already contains the id exactly once: both passes are
    -- deduplicated
    have hpos : 0 < (u.messages.filter (fun mo => mo.message_id == parsed.message_id)).length := by
      omega
    obtain ⟨mo, hmo⟩ := List.exists_mem_of_length_pos hpos
    obtain ⟨hmoin, hmop⟩ := List.mem_filter.mp hmo
    have hany1 : u.messages.any (fun mo => mo.message_id == parsed.message_id) = true :=
      List.any_eq_true.mpr ⟨mo, hmoin, hmop⟩
    have hdc1 : dupCheck users ruuid parsed.message_id = true :=
      dupCheck_true_of_mem (findUser_mem hfind) (findUser_uuid hfind) hany1
    have hstep1 := processMessage_type4_dup b64decode utf8ignore now 0
      { users := users, processed := 0, errors := [] } m message_bytes parsed u
      htd hp hpt hfind hdc1
    have husers1 :
        (processMessage b64decode utf8ignore now
          { users := users, processed := 0, errors := [] } 0 m).users = users := by
      rw [hstep1]
    have hfind2x : findUser (processMessage b64decode utf8ignore now
        { users := users, processed := 0, errors := [] } 0 m).users ruuid = some u := by
      rw [husers1]
      exact hfind
    have hdc2x : dupCheck (processMessage b64decode utf8ignore now
        { users := users, processed := 0, errors := [] } 0 m).users ruuid
        parsed.message_id = true := by
      rw [husers1]
      exact hdc1
    have hstep2 := processMessage_type4_dup b64decode utf8ignore now 1
      (processMessage b64decode utf8ignore now
        { users := users, processed := 0, errors := [] } 0 m)
      m message_bytes parsed u htd hp hpt hfind2x hdc2x
    have husers : (receive_byte_string b64decode utf8ignore now users [m, m]).users
        = users := by
      show (processMessage b64decode utf8ignore now
        (processMessage b64decode utf8ignore now
          { users := users, processed := 0, errors := [] } 0 m) 1 m).users = _
      rw [hstep2]
      exact husers1
    have hproc : (receive_byte_string b64decode utf8ignore now users [m, m]).processed
        = 2 := by
      show (processMessage b64decode utf8ignore now
        (processMessage b64decode utf8ignore now
          { users := users, processed := 0, errors := [] } 0 m) 1 m).processed = 2
      rw [hstep2, hstep1]
    have herr : (receive_byte_string b64decode utf8ignore now users [m, m]).errors
        = [] := by
      show (processMessage b64decode utf8ignore now
        (processMessage b64decode utf8ignore now
          { users := users, processed := 0, errors := [] } 0 m) 1 m).errors = []
      rw [hstep2, hstep1]
    exact ⟨u, by rw [husers]; exact hfind, hc1, hproc, herr⟩

/-- Witness for C3: submitting the concrete type-4 message twice to a
store holding only the fresh record of device "0001". -/
theorem type4_dedup_idempotent_witness :
    ∃ w, findUser (receive_byte_string (fun _ => none) (fun _ => []) 99
        [witnessUserFresh] [witnessHexType4, witnessHexType4]).users
        (resolveSenderUuid witnessParsedType4.sender_id) = some w ∧
      (w.messages.filter
        (fun mo => mo.message_id == witnessParsedType4.message_id)).length = 1 ∧
      (receive_byte_string (fun _ => none) (fun _ => []) 99
        [witnessUserFresh] [witnessHexType4, witnessHexType4]).processed = 2 ∧
      (receive_byte_string (fun _ => none) (fun _ => []) 99
        [witnessUserFresh] [witnessHexType4, witnessHexType4]).errors = [] :=
  type4_dedup_idempotent (fun _ => none) (fun _ => []) 99 [witnessUserFresh]
    witnessHexType4 witnessBytesType4 witnessParsedType4 witnessUserFresh
    (by decide) rfl (by decide) (by decide) (by decide) (by decide)

lemma lookup_overwrite {α : Type} (m : List (String × α)) (k : String) (v : α) :
    (m.map (fun p => if p.1 = k then (k, v) else p)).lookup k =
      if (m.lookup k).isSome then some v else none := by
  induction m with
  | nil => rfl
  | cons p rest ih =>
    rcases p with ⟨a, b⟩
    by_cases hk : a = k
    · subst hk
      simp [List.lookup_cons]
    · have hne : (k == a) = false := beq_eq_false_iff_ne.mpr (Ne.symm hk)
      simp only [List.map_cons, if_neg hk, List.lookup_cons, hne, ih]

lemma lookup_overwrite_ne {α : Type} (m : List (String × α)) (k k' : String) (v : α)
    (h : k' ≠ k) :
    (m.map (fun p => if p.1 = k then (k, v) else p)).lookup k' = m.lookup k' := by
  induction m with
  | nil => rfl
  | cons p rest ih =>
    rcases p with ⟨a, b⟩
    by_cases hk : a = k
    · subst hk
      have hne : (k' == a) = false := beq_eq_false_iff_ne.mpr h
      simp [List.lookup_cons, hne, ih]
    · simp only [List.map_cons, if_neg hk]
      cases hka : (k' == a) with
      | true => simp [List.lookup_cons, hka]
      | false => simp [List.lookup_cons, hka, ih]

lemma lookup_append_last {α : Type} (m : List (String × α)) (k : String) (v : α)
    (h : m.lookup k = none) : (m ++ [(k, v)]).lookup k = some v := by
  induction m with
  | nil => simp [List.lookup_cons]
  | cons p rest ih =>
    rcases p with ⟨a, b⟩
    cases hka : (k == a) with
    | true => simp [List.lookup_cons, hka] at h
    | false =>
      simp only [List.lookup_cons, hka] at h
      simp only [List.cons_append, List.lookup_cons, hka]
      exact ih h

lemma lookup_append_last_ne {α : Type} (m : List (String × α)) (k k' : String) (v : α)
    (h : k' ≠ k) : (m ++ [(k, v)]).lookup k' = m.lookup k' := by
  induction m with
  | nil => simp [List.lookup_cons, beq_eq_false_iff_ne.mpr h]
  | cons p rest ih =>
    rcases p with ⟨a, b⟩
    cases hka : (k' == a) with
    | true => simp [List.lookup_cons, hka]
    | false => simp [List.lookup_cons, hka, ih]

lemma lookup_dictInsert_self {α : Type} (m : List (String × α)) (k : String) (v : α) :
    (dictInsert m k v).lookup k = some v := by
  cases hlk : m.lookup k with
  | none => simp [dictInsert, hlk, lookup_append_last m k v hlk]
  | some w =>
    have h := lookup_overwrite m k v
    simp [hlk] at h
    simp [dictInsert, hlk, h]

lemma lookup_dictInsert_ne {α : Type} (m : List (String × α)) (k k' : String) (v : α)
    (h : k' ≠ k) : (dictInsert m k v).lookup k' = m.lookup k' := by
  cases hlk : m.lookup k with
  | none => simp [dictInsert, hlk, lookup_append_last_ne m k k' v h]
  | some w => simp [dictInsert, hlk, lookup_overwrite_ne m k k' v h]

lemma lookup_mem {α : Type} {m : List (String × α)} {k : String} {w : α}
    (h : m.lookup k = some w) : (k, w) ∈ m := by
  induction m with
  | nil => simp [List.lookup] at h
  | cons p rest ih =>
    rcases p with ⟨a, b⟩
    cases hka : (k == a) with
    | true =>
      have hk : k = a := eq_of_beq hka
      simp only [List.lookup_cons, hka, Option.some.injEq] at h
      subst hk
      subst h
      exact List.mem_cons_self _ _
    | false =>
      simp only [List.lookup_cons, hka] at h
      exact List.mem_cons_of_mem _ (ih h)

lemma mem_dictInsert_self {α : Type} (m : List (String × α)) (k : String) (v : α) :
    (k, v) ∈ dictInsert m k v := by
  cases hlk : m.lookup k with
  | none => simp [dictInsert, hlk]
  | some w =>
    have hmem := lookup_mem hlk
    simp only [dictInsert, hlk, Option.isSome_some, if_true]
    have : ((k, w).1 = k) := rfl
    exact List.mem_map.mpr ⟨(k, w), hmem, by simp⟩

lemma dictInsert_ne_nil {α : Type} (m : List (String × α)) (k : String) (v : α) :
    dictInsert m k v ≠ [] := by
  intro hcontra
  have := mem_dictInsert_self m k v
  rw [hcontra] at this
  simp at this

lemma lookup_none_not_mem {α : Type} {m : List (String × α)} {k : String}
    (h : m.lookup k = none) : ∀ p ∈ m, p.1 ≠ k := by
  induction m with
  | nil => intro p hp; simp at hp
  | cons q rest ih =>
    rcases q with ⟨a, b⟩
    cases hka : (k == a) with
    | true =>
      simp only [List.lookup_cons, hka] at h
      exact Option.noConfusion h
    | false =>
      simp only [List.lookup_cons, hka] at h
      intro p hp
      rcases List.mem_cons.mp hp with rfl | hp2
      · intro hc
        exact (beq_eq_false_iff_ne.mp hka) hc.symm
      · exact ih h p hp2

lemma dictInsert_keys_nodup {α : Type} (m : List (String × α)) (k : String) (v : α)
    (h : (m.map Prod.fst).Nodup) : ((dictInsert m k v).map Prod.fst).Nodup := by
  cases hlk : m.lookup k with
  | some w =>
    have heq : (m.map (fun p => if p.1 = k then (k, v) else p)).map Prod.fst =
        m.map Prod.fst := by
      rw [List.map_map]
      apply List.map_congr_left
      intro p _
      by_cases hp : p.1 = k
      · simp [Function.comp, hp]
      · simp [Function.comp, hp]
    simpa [dictInsert, hlk, heq] using h
  | none =>
    have hkeys : (dictInsert m k v).map Prod.fst = m.map Prod.fst ++ [k] := by
      simp [dictInsert, hlk]
    rw [hkeys]
    refine List.Nodup.append h (List.nodup_singleton k) ?_
    intro a ha hb
    simp only [List.mem_singleton] at hb
    subst hb
    obtain ⟨p, hp, hpk⟩ := List.mem_map.mp ha
    exact lookup_none_not_mem hlk p hp hpk

lemma fold_insert_lookup_preserved (docs : List PhoneData) (k : String)
    (h : ∀ x ∈ docs, x.phone_id ≠ k) :
    ∀ acc : List (String × PhoneData),
      ((docs.foldl (fun b d0 => dictInsert b d0.phone_id d0) acc).lookup k) =
        acc.lookup k := by
  induction docs with
  | nil => intro acc; rfl
  | cons x rest ih =>
    intro acc
    simp only [List.foldl_cons]
    rw [ih (fun y hy => h y (List.mem_cons_of_mem x hy))]
    exact lookup_dictInsert_ne acc x.phone_id k x
      (fun he => h x (List.mem_cons_self x rest) he.symm)

lemma fold_insert_lookup_of_mem (doc : PhoneData) :
    ∀ docs : List PhoneData, (docs.map PhoneData.phone_id).Nodup → doc ∈ docs →
      ∀ acc : List (String × PhoneData),
        ((docs.foldl (fun b d0 => dictInsert b d0.phone_id d0) acc).lookup
          doc.phone_id) = some doc := by
  intro docs
  induction docs with
  | nil => intro _ hmem; exact absurd hmem (List.not_mem_nil doc)
  | cons x rest ih =>
    intro hnd hmem acc
    simp only [List.foldl_cons]
    rcases List.mem_cons.mp hmem with rfl | hmem2
    · have hx : doc.phone_id ∉ rest.map PhoneData.phone_id := (List.nodup_cons.mp hnd).1
      have hne : ∀ y ∈ rest, y.phone_id ≠ doc.phone_id := by
        intro y hy he
        exact hx (he ▸ List.mem_map_of_mem PhoneData.phone_id hy)
      rw [fold_insert_lookup_preserved rest doc.phone_id hne]
      exact lookup_dictInsert_self acc doc.phone_id doc
    · exact ih (List.nodup_cons.mp hnd).2 hmem2 (dictInsert acc x.phone_id x)

lemma fold_insert_isSome (docs : List PhoneData) :
    ∀ (acc : List (String × PhoneData)) (k : String),
      (((docs.foldl (fun b d0 => dictInsert b d0.phone_id d0) acc).lookup k).isSome) =
        (((acc.lookup k).isSome) || docs.any (fun d0 => d0.phone_id == k)) := by
  induction docs with
  | nil => intro acc k; simp
  | cons x rest ih =>
    intro acc k
    simp only [List.foldl_cons, List.any_cons]
    rw [ih]
    by_cases hk : k = x.phone_id
    · subst hk
      rw [lookup_dictInsert_self]
      simp
    · rw [lookup_dictInsert_ne acc x.phone_id k x hk]
      have hne : (x.phone_id == k) = false := beq_eq_false_iff_ne.mpr (Ne.symm hk)
      simp [hne]

/-- C2 counterexample: after `put("d1", s)` (sample time 10) and a
flush that fails at time 20, the buffer does not map "d1" to the
original sample `s`: the restored entry is the transformed document,
whose timestamp field is the flush time 20 and which carries the
GeoJSON pair and `last_seen`. -/
theorem flush_failure_counterexample :
    (flushTick 20 false (bufferPut [] "d1" witnessSample)).1.lookup "d1" ≠
      some witnessSample ∧
    (flushTick 20 false (bufferPut [] "d1" witnessSample)).1.lookup "d1" =
      some (flushDoc 20 "d1" witnessSample) :=
  ⟨by decide, by decide⟩

/-- C2 (amended): failed-flush rollback.  For every buffer with unique
keys (the dict invariant), after `put(d, s)` a flush that fails at time
`t` re-inserts an entry for every drained device id - no sample is
dropped - and the entry restored under `d` is the transformed document
`flushDoc t d s`: it preserves the sample's coordinates, accuracy,
battery, type and questionnaire and keeps the original sample time in
`last_seen`, but its timestamp field is the flush time, so the buffer
holds the document, not the original sample object. -/
theorem flush_failure_restores_transformed (t : ℕ) (buf : List (String × PhoneData))
    (d : String) (s : PhoneData) (hnd : (buf.map Prod.fst).Nodup) :
    (flushTick t false (bufferPut buf d s)).1.lookup d = some (flushDoc t d s) ∧
    (flushDoc t d s).latitude = s.latitude ∧
    (flushDoc t d s).longitude = s.longitude ∧
    (flushDoc t d s).accuracy = s.accuracy ∧
    (flushDoc t d s).battery_percentage = s.battery_percentage ∧
    (flushDoc t d s).ptype = s.ptype ∧
    (flushDoc t d s).questionnaire_data = s.questionnaire_data ∧
    (flushDoc t d s).last_seen = some s.timestamp ∧
    (flushDoc t d s).timestamp = t ∧
    (∀ k : String, ((bufferPut buf d s).lookup k).isSome →
      (((flushTick t false (bufferPut buf d s)).1.lookup k).isSome)) := by
  have hne : bufferPut buf d s ≠ [] := dictInsert_ne_nil buf d s
  have hflush : (flushTick t false (bufferPut buf d s)).1 =
      ((bufferPut buf d s).map (fun p => flushDoc t p.1 p.2)).foldl
        (fun b doc => dictInsert b doc.phone_id doc) [] := by
    simp [flushTick, hne]
  have hkeys : (((bufferPut buf d s).map (fun p => flushDoc t p.1 p.2)).map
      PhoneData.phone_id) = (bufferPut buf d s).map Prod.fst := by
    rw [List.map_map]
    apply List.map_congr_left
    intro p _
    rfl
  have hnd2 : (((bufferPut buf d s).map (fun p => flushDoc t p.1 p.2)).map
      PhoneData.phone_id).Nodup := by
    rw [hkeys]
    exact dictInsert_keys_nodup buf d s hnd
  have hmemdoc : flushDoc t d s ∈ (bufferPut buf d s).map (fun p => flushDoc t p.1 p.2) :=
    List.mem_map.mpr ⟨(d, s), mem_dictInsert_self buf d s, rfl⟩
  refine ⟨?_, rfl, rfl, rfl, rfl, rfl, rfl, rfl, rfl, ?_⟩
  · rw [hflush]
    exact fold_insert_lookup_of_mem (flushDoc t d s) _ hnd2 hmemdoc []
  · intro k hk
    rw [hflush, fold_insert_isSome]
    cases hlk : (bufferPut buf d s).lookup k with
    | none => rw [hlk] at hk; simp at hk
    | some w =>
      have hmemw : flushDoc t k w ∈ (bufferPut buf d s).map (fun p => flushDoc t p.1 p.2) :=
        List.mem_map.mpr ⟨(k, w), lookup_mem hlk, rfl⟩
      have hany : ((bufferPut buf d s).map (fun p => flushDoc t p.1 p.2)).any
          (fun d0 => d0.phone_id == k) = true :=
        List.any_eq_true.mpr ⟨flushDoc t k w, hmemw, by simp [flushDoc]⟩
      simp [hany]

/-- Witness for C2 (amended): the rollback property instantiated at the
singleton buffer holding `witnessSample` under "d1", flushed
unsuccessfully at time 20. -/
theorem flush_failure_restores_transformed_witness :
    (flushTick 20 false (bufferPut [] "d1" witnessSample)).1.lookup "d1" =
      some (flushDoc 20 "d1" witnessSample) ∧
    (flushDoc 20 "d1" witnessSample).latitude = witnessSample.latitude ∧
    (flushDoc 20 "d1" witnessSample).longitude = witnessSample.longitude ∧
    (flushDoc 20 "d1" witnessSample).accuracy = witnessSample.accuracy ∧
    (flushDoc 20 "d1" witnessSample).battery_percentage =
      witnessSample.battery_percentage ∧
    (flushDoc 20 "d1" witnessSample).ptype = witnessSample.ptype ∧
    (flushDoc 20 "d1" witnessSample).questionnaire_data =
      witnessSample.questionnaire_data ∧
    (flushDoc 20 "d1" witnessSample).last_seen = some witnessSample.timestamp ∧
    (flushDoc 20 "d1" witnessSample).timestamp = 20 ∧
    (∀ k : String, ((bufferPut [] "d1" witnessSample).lookup k).isSome →
      (((flushTick 20 false (bufferPut [] "d1" witnessSample)).1.lookup k).isSome)) :=
  flush_failure_restores_transformed 20 [] "d1" witnessSample (by decide)

lemma mergeStep_lookup_ne (acc : List (String × LocRecord)) (p : String × PhoneData)
    (X : String) (h : p.1 ≠ X) : (mergeStep acc p).lookup X = acc.lookup X := by
  unfold mergeStep
  cases hacc : acc.lookup p.1 with
  | none =>
    simp only [hacc]
    exact lookup_dictInsert_ne acc p.1 X (bufProject p.1 p.2) (Ne.symm h)
  | some cur =>
    simp only [hacc]
    by_cases hlt : cur.timestamp < p.2.timestamp
    · rw [if_pos (by simpa using hlt)]
      exact lookup_dictInsert_ne acc p.1 X (bufProject p.1 p.2) (Ne.symm h)
    · simp [hlt]

lemma mergeStep_lookup_self (acc : List (String × LocRecord)) (X : String)
    (b : PhoneData) :
    (mergeStep acc (X, b)).lookup X =
      (match acc.lookup X with
       | some cur =>
         if cur.timestamp < b.timestamp then some (bufProject X b) else some cur
       | none => some (bufProject X b)) := by
  unfold mergeStep
  cases hacc : acc.lookup X with
  | none => simp [hacc, lookup_dictInsert_self]
  | some cur =>
    by_cases hlt : cur.timestamp < b.timestamp
    · simp [hacc, hlt, lookup_dictInsert_self]
    · simp [hacc, hlt]

lemma mergeBuffer_lookup_notmem (X : String) :
    ∀ (buffer : List (String × PhoneData)), (∀ p ∈ buffer, p.1 ≠ X) →
      ∀ acc : List (String × LocRecord),
        (mergeBuffer acc buffer).lookup X = acc.lookup X := by
  intro buffer
  induction buffer with
  | nil => intro _ acc; rfl
  | cons e rest ih =>
    intro h acc
    simp only [mergeBuffer, List.foldl_cons]
    have hrest := ih (fun q hq => h q (List.mem_cons_of_mem e hq)) (mergeStep acc e)
    simp only [mergeBuffer] at hrest
    rw [hrest]
    exact mergeStep_lookup_ne acc e X (h e (List.mem_cons_self e rest))

lemma mergeBuffer_lookup_mem (X : String) (b : PhoneData) :
    ∀ (buffer : List (String × PhoneData)), (buffer.map Prod.fst).Nodup →
      (X, b) ∈ buffer →
      ∀ acc : List (String × LocRecord),
        (mergeBuffer acc buffer).lookup X =
          (match acc.lookup X with
           | some cur =>
             if cur.timestamp < b.timestamp then some (bufProject X b) else some cur
           | none => some (bufProject X b)) := by
  intro buffer
  induction buffer with
  | nil => intro _ hmem; exact absurd hmem (List.not_mem_nil _)
  | cons e rest ih =>
    intro hnd hmem acc
    simp only [mergeBuffer, List.foldl_cons]
    rcases List.mem_cons.mp hmem with heq | hmem2
    · have he : e = (X, b) := heq.symm
      subst he
      have hXnot : X ∉ rest.map Prod.fst := by
        simpa using (List.nodup_cons.mp hnd).1
      have hnone : ∀ q ∈ rest, q.1 ≠ X := by
        intro q hq hc
        exact hXnot (hc ▸ List.mem_map_of_mem Prod.fst hq)
      have hrest := mergeBuffer_lookup_notmem X rest hnone (mergeStep acc (X, b))
      simp only [mergeBuffer] at hrest
      rw [hrest]
      exact mergeStep_lookup_self acc X b
    · have he1 : e.1 ≠ X := by
        intro hc
        apply (List.nodup_cons.mp hnd).1
        rw [hc]
        exact List.mem_map_of_mem Prod.fst hmem2
      have ihx := ih (List.nodup_cons.mp hnd).2 hmem2 (mergeStep acc e)
      simp only [mergeBuffer] at ihx
      rw [ihx, mergeStep_lookup_ne acc e X he1]

/-- C4: merger recency rule.  For every device X buffered exactly once
(the buffer is a dict, so keys are unique): if the aggregated database
rows leave a persisted candidate `p` for X, the merged latest-per-device
entry for X is the buffered sample exactly when it is strictly newer
(`p.timestamp < b.timestamp`) and otherwise the persisted candidate;
if X has no persisted candidate, the merged entry is always the
buffered sample. -/
theorem merger_recency (db_locations : List PhoneData)
    (buffer : List (String × PhoneData)) (X : String) (b : PhoneData)
    (hmem : (X, b) ∈ buffer) (hnd : (buffer.map Prod.fst).Nodup) :
    (∀ p : LocRecord, (loadDbLatest db_locations).lookup X = some p →
      (latestPerDevice db_locations buffer).lookup X =
        (if p.timestamp < b.timestamp then some (bufProject X b) else some p)) ∧
    ((loadDbLatest db_locations).lookup X = none →
      (latestPerDevice db_locations buffer).lookup X = some (bufProject X b)) := by
  have hmain := mergeBuffer_lookup_mem X b buffer hnd hmem (loadDbLatest db_locations)
  constructor
  · intro p hp
    unfold latestPerDevice
    rw [hmain, hp]
  · intro hp
    unfold latestPerDevice
    rw [hmain, hp]

/-- Witness for C4: one persisted row at time 10 against the buffered
`witnessSample` at time 10+ for the same device. -/
theorem merger_recency_witness :
    (latestPerDevice [witnessDbRow] [("d1", witnessSample)]).lookup "d1" =
      (if (dbProject witnessDbRow).timestamp < witnessSample.timestamp
        then some (bufProject "d1" witnessSample)
        else some (dbProject witnessDbRow)) :=
  (merger_recency [witnessDbRow] [("d1", witnessSample)] "d1" witnessSample
    (by decide) (by decide)).1 (dbProject witnessDbRow) (by decide)

end DisasterRecovery
